import Mathlib

/-!
Shallow embedding of the Gomoku game core (rules engine `GameLogic`,
board/history state machine `GameBoard`, persistence facade
`GameController.saveGame`/`loadGame`, and the coordinate helpers
`boardToDisplayCoords`/`displayToBoardCoords`), together with proofs of the
specification claims about them.

Modelling conventions:
- JS cell values `null`/`'black'`/`'white'` become `Option Player`.
- The 15x15 JS array of arrays becomes `List (List Cell)`; reads go through
  `List.getD` (total), writes through `List.set`.  Real executions only
  read/write in-range cells of a 15x15 board, where these coincide with the
  JS semantics.
- JS numbers used as coordinates become `Int` (user input may be any
  integer); timestamps become `Nat`.
- Methods that throw become `Except`-valued functions; methods returning a
  success flag return `Bool × State`.
-/

namespace Gomoku

/-- Stone colours. JS represents these as the strings `'black'` / `'white'`. -/
inductive Player where
  | black
  | white
deriving DecidableEq

/-- Switching to the other colour, `currentPlayer === 'black' ? 'white' : 'black'`. -/
def Player.other : Player → Player
  | .black => .white
  | .white => .black

/-- A board cell: `null` (empty) or a stone. -/
abbrev Cell := Option Player

/-- The board: a list of 15 rows of 15 cells in real executions. -/
abbrev Board := List (List Cell)

/-- Game status strings `'playing'`, `'won'`, `'draw'`. -/
inductive Status where
  | playing
  | won
  | draw
deriving DecidableEq

/-- A move record as pushed by `GameBoard.makeMove`. -/
structure Move where
  row : Int
  col : Int
  player : Player
  moveNumber : Nat
  timestamp : Nat
deriving DecidableEq

/-- The mutable state of one `GameBoard` instance. -/
structure Session where
  board : Board
  moveHistory : List Move
  currentPlayer : Player
  gameStatus : Status
  winner : Option Player
deriving DecidableEq

/-- Board side length, `this.boardSize = this.BOARD_SIZE = 15`. -/
def boardSize : Nat := 15

/-- `GameBoard._createEmptyBoard`: 15 rows of 15 `null` cells. -/
def createEmptyBoard : Board := List.replicate 15 (List.replicate 15 (none : Cell))

/-- The state built by the `GameBoard` constructor (and by `reset`). -/
def initialSession : Session :=
  { board := createEmptyBoard
    moveHistory := []
    currentPlayer := Player.black
    gameStatus := Status.playing
    winner := none }

/-- `GameBoard.reset`: reinitializes every field. -/
def reset (_ : Session) : Session := initialSession

/-- Reading `board[r][c]` at (already validated) in-range natural coordinates. -/
def cellAt (b : Board) (r c : Nat) : Cell := (b.getD r []).getD c none

/-- The bounds test `r >= 0 && r < 15 && c >= 0 && c < 15` used by the rules engine. -/
def inBounds (r c : Int) : Bool := decide (0 ≤ r ∧ r < 15 ∧ 0 ≤ c ∧ c < 15)

/-- Reading `board[r][c]` at integer coordinates, `null` out of range. -/
def cellAtI (b : Board) (r c : Int) : Cell :=
  if inBounds r c then cellAt b r.toNat c.toNat else none

/-- Writing `board[r][c] = v` at in-range natural coordinates. -/
def setCell (b : Board) (r c : Nat) (v : Cell) : Board :=
  b.set r ((b.getD r []).set c v)

/-- Writing `board[r][c] = v` at integer coordinates.  Real executions only
write in-range cells (`makeMove` validates first; `undo` clears a recorded
move's cell), where this is exactly the JS assignment. -/
def setCellI (b : Board) (r c : Int) (v : Cell) : Board :=
  if inBounds r c then setCell b r.toNat c.toNat v else b

/-- `GameLogic.isValidMove`: in range and the cell is `null`. -/
def isValidMove (b : Board) (r c : Int) : Bool :=
  if r < 0 ∨ 15 ≤ r ∨ c < 0 ∨ 15 ≤ c then false
  else (cellAt b r.toNat c.toNat).isNone

/-- The k-th position along a ray from (r, c) in direction (dx, dy). -/
def stepPos (r c dx dy : Int) (k : Nat) : Int × Int := (r + k * dx, c + k * dy)

/-- The condition of the scan loop in `GameLogic.checkWinner`: the position is
in range and holds the player's stone. -/
def rayPred (b : Board) (p : Player) (q : Int × Int) : Bool :=
  inBounds q.1 q.2 && (cellAt b q.1.toNat q.2.toNat == some p)

/-- The positions visited by one direction of the scan loop, in order.  On a
15x15 board the loop makes at most 14 steps in any unit direction from an
in-range start, so listing 14 candidate positions is exhaustive. -/
def rayPositions (r c dx dy : Int) : List (Int × Int) :=
  (List.range 14).map (fun k => stepPos r c dx dy (k + 1))

/-- The contribution of one direction of the `checkWinner` scan loop: stones
counted walking away from (r, c) while in range and matching, stopping at the
first failure. -/
def rayCount (b : Board) (p : Player) (r c dx dy : Int) : Nat :=
  ((rayPositions r c dx dy).takeWhile (rayPred b p)).length

/-- The four direction pairs of `GameLogic.checkWinner`: horizontal, vertical
and the two diagonals, each as two opposite rays. -/
def directions : List ((Int × Int) × (Int × Int)) :=
  [((0, 1), (0, -1)), ((1, 0), (-1, 0)), ((1, 1), (-1, -1)), ((1, -1), (-1, 1))]

/-- Stones counted on one axis: 1 for the placed stone plus both rays. -/
def axisCount (b : Board) (p : Player) (r c : Int) (d : (Int × Int) × (Int × Int)) : Nat :=
  1 + rayCount b p r c d.1.1 d.1.2 + rayCount b p r c d.2.1 d.2.2

/-- `GameLogic.checkWinner`: some axis through the last move counts at least
`WINNING_LENGTH = 5` stones. -/
def checkWinner (b : Board) (r c : Int) (p : Player) : Bool :=
  directions.any (fun d => 5 ≤ axisCount b p r c d)

/-- `GameLogic.checkDraw`: no `null` cell remains among the 15x15 positions. -/
def checkDraw (b : Board) : Bool :=
  (List.range 15).all (fun r => (List.range 15).all (fun c => !(cellAt b r c).isNone))

/-- The two failure modes of `GameBoard.makeMove` (both thrown as `Error` in
JS): the game is over, or the move is invalid. -/
inductive MoveError where
  | gameOver
  | invalidMove
deriving DecidableEq

/-- `GameBoard.makeMove`: validate, place the stone, record the move, then
check win, draw, or switch players.  The wall-clock `Date.now()` is passed in
as `t`. -/
def makeMove (s : Session) (r c : Int) (t : Nat) : Except MoveError Session :=
  if s.gameStatus ≠ Status.playing then Except.error MoveError.gameOver
  else if ¬ isValidMove s.board r c then Except.error MoveError.invalidMove
  else
    let b := setCellI s.board r c (some s.currentPlayer)
    let h := s.moveHistory ++ [⟨r, c, s.currentPlayer, s.moveHistory.length + 1, t⟩]
    if checkWinner b r c s.currentPlayer then
      Except.ok { board := b, moveHistory := h, currentPlayer := s.currentPlayer,
                  gameStatus := Status.won, winner := some s.currentPlayer }
    else if checkDraw b then
      Except.ok { board := b, moveHistory := h, currentPlayer := s.currentPlayer,
                  gameStatus := Status.draw, winner := s.winner }
    else
      Except.ok { board := b, moveHistory := h, currentPlayer := s.currentPlayer.other,
                  gameStatus := Status.playing, winner := s.winner }

/-- `GameBoard.undo`: refuse on empty history or a finished game, otherwise
pop the last move, clear its cell and give the turn back to its player. -/
def undo (s : Session) : Bool × Session :=
  match s.moveHistory.getLast? with
  | none => (false, s)
  | some m =>
    if s.gameStatus ≠ Status.playing then (false, s)
    else
      (true,
        { board := setCellI s.board m.row m.col none
          moveHistory := s.moveHistory.dropLast
          currentPlayer := m.player
          gameStatus := s.gameStatus
          winner := s.winner })

/-- `GameBoard.getPiece`: `null` out of range, otherwise the cell. -/
def getPiece (s : Session) (r c : Int) : Cell :=
  if r < 0 ∨ 15 ≤ r ∨ c < 0 ∨ 15 ≤ c then none
  else cellAt s.board r.toNat c.toNat

/-- `GameBoard.isEmpty`: `getPiece(row, col) === null`. -/
def isEmpty (s : Session) (r c : Int) : Bool := (getPiece s r c).isNone

/-- The commands the UI layer can issue against one session.  A `move` carries
the clicked coordinates and the wall-clock time of the click. -/
inductive Op where
  | move (r c : Int) (t : Nat)
  | undoOp
  | resetOp

/-- One UI command applied to a session.  A failed `makeMove` is caught by
`GameController._handleBoardClick` and only displayed, leaving the state
unchanged; a failed `undo` likewise. -/
def applyOp (s : Session) : Op → Session
  | .move r c t =>
    match makeMove s r c t with
    | .ok s2 => s2
    | .error _ => s
  | .undoOp => (undo s).2
  | .resetOp => reset s

/-- A whole interaction: commands applied in order from a starting session. -/
def runOps (s : Session) (ops : List Op) : Session := ops.foldl applyOp s

/-- Weight of a cell when counting stones: 1 for a stone, 0 for empty. -/
def cellWeight : Cell → Nat
  | none => 0
  | some _ => 1

/-- Number of stones in one row. -/
def rowStones (row : List Cell) : Nat := (row.map cellWeight).sum

/-- Number of non-empty cells on the board. -/
def countStones (b : Board) : Nat := (b.map rowStones).sum

/-- Well-formedness of the 15x15 grid: 15 rows of 15 cells. -/
def boardShape (b : Board) : Prop := b.length = 15 ∧ ∀ row ∈ b, row.length = 15

/-- The parsed shape of a persisted blob, as read by `GameController.loadGame`:
each field of the parsed JSON object is either present or missing
(`undefined`).  `winner` is itself nullable when present. -/
structure RawState where
  board : Option Board
  moveHistory : Option (List Move)
  currentPlayer : Option Player
  gameStatus : Option Status
  winner : Option (Option Player)
  timestamp : Option Nat
deriving DecidableEq

/-- A `GameBoard` whose fields may have been overwritten with `undefined` by a
`loadGame` of an incomplete blob.  `Session.toDyn` embeds an ordinary session
(all fields defined). -/
structure SessionDyn where
  board : Option Board
  moveHistory : Option (List Move)
  currentPlayer : Option Player
  gameStatus : Option Status
  winner : Option (Option Player)
deriving DecidableEq

/-- An ordinary session viewed as a dynamic one: every field is defined. -/
def Session.toDyn (s : Session) : SessionDyn :=
  ⟨some s.board, some s.moveHistory, some s.currentPlayer, some s.gameStatus, some s.winner⟩

/-- `GameController.saveGame`: the serialized blob captures the board copy,
history copy, current player, status, winner and a timestamp.
`JSON.stringify` of this plain data followed by `JSON.parse` is the identity,
so the blob is modelled as the parsed record itself. -/
def saveGame (s : Session) (t : Nat) : RawState :=
  ⟨some s.board, some s.moveHistory, some s.currentPlayer, some s.gameStatus, some s.winner, some t⟩

/-- `GameController.loadGame`: `JSON.parse` failure (modelled as `none`) is
caught and reported as failure with no assignment.  Any successfully parsed
object is assigned field by field onto the game board, a missing field
becoming `undefined`; the refresh calls still inside the `try` then invoke
the core accessors `getBoardCopy` (maps `this.board`) and `getMoveHistory`
(spreads `this.moveHistory`), which throw on an undefined field, so the
`catch` reports failure — with the state already overwritten — exactly when
`board` or `moveHistory` was missing.  `updateGameInfo` only reads the other
three fields and cannot throw; the renderer itself is out of scope and
assumed not to throw on defined fields. -/
def loadGame (g : SessionDyn) (blob : Option RawState) : Bool × SessionDyn :=
  match blob with
  | none => (false, g)
  | some gs =>
    let g2 : SessionDyn := ⟨gs.board, gs.moveHistory, gs.currentPlayer, gs.gameStatus, gs.winner⟩
    if gs.board.isNone || gs.moveHistory.isNone then (false, g2) else (true, g2)

/-- Malformed input in the sense of the specification of `deserialize`: the
blob fails to parse, or parses but lacks one of the five required fields. -/
def malformedBlob : Option RawState → Bool
  | none => true
  | some gs =>
    gs.board.isNone || gs.moveHistory.isNone || gs.currentPlayer.isNone ||
      gs.gameStatus.isNone || gs.winner.isNone

/-- A blob that parses (e.g. the JSON text of the empty object) but carries
none of the required fields. -/
def emptyRaw : RawState := ⟨none, none, none, none, none, none⟩

/-- The column letters `'ABCDEFGHIJKLMNO'` used by the coordinate helpers. -/
def letterList : List Char :=
  ['A', 'B', 'C', 'D', 'E', 'F', 'G', 'H', 'I', 'J', 'K', 'L', 'M', 'N', 'O']

/-- `boardToDisplayCoords`: column letter followed by the number `15 - row`. -/
def boardToDisplayCoords (r c : Nat) : String :=
  String.mk [letterList.getD c '?'] ++ toString (15 - r)

/-- Numeric value of a decimal digit character. -/
def digitVal (ch : Char) : Nat := ch.toNat - 48

/-- The number part of the display-coordinate regular expression
`([1-9]|1[0-5])` matched against the whole remainder of the string. -/
def parseNumberPart : List Char → Option Nat
  | [d] => if '1' ≤ d ∧ d ≤ '9' then some (digitVal d) else none
  | [d1, d2] => if d1 = '1' ∧ '0' ≤ d2 ∧ d2 ≤ '5' then some (10 + digitVal d2) else none
  | _ => none

/-- `displayToBoardCoords`: match `^([A-O])([1-9]|1[0-5])$` case-insensitively,
take the letter index as the column and `15 - number` as the row, and guard
the result range exactly as the source does. -/
def displayToBoardCoords (s : String) : Option (Nat × Nat) :=
  match s.data with
  | [] => none
  | ch :: rest =>
    let up := ch.toUpper
    if up ∈ letterList then
      match parseNumberPart rest with
      | none => none
      | some n =>
        let col := letterList.indexOf up
        let row := 15 - n
        if 15 ≤ row then none else some (row, col)
    else none

/-- A board built by placing the given stones, in order, on the empty board. -/
def placeAll (ps : List (Nat × Nat × Cell)) : Board :=
  ps.foldl (fun b q => setCell b q.1 q.2.1 q.2.2) createEmptyBoard

/-- Exactly five contiguous black stones on row 7, columns 5 through 9. -/
def fiveInRowBoard : Board :=
  placeAll [(7, 5, some Player.black), (7, 6, some Player.black), (7, 7, some Player.black),
    (7, 8, some Player.black), (7, 9, some Player.black)]

/-- Four contiguous black stones on row 7, columns 5 through 8, with both ends
occupied by white. -/
def blockedFourBoard : Board :=
  placeAll [(7, 4, some Player.white), (7, 5, some Player.black), (7, 6, some Player.black),
    (7, 7, some Player.black), (7, 8, some Player.black), (7, 9, some Player.white)]

/-! Specification-side characterisation of the `checkWinner` scan.  The spec
reads: for each axis, count 1 (the placed stone) plus contiguous same-player
stones along both rays until a non-matching cell or the board edge. -/

/-- Step `k` along a ray is in range and holds the player's stone. -/
def goodStep (b : Board) (p : Player) (r c dx dy : Int) (k : Nat) : Prop :=
  rayPred b p (stepPos r c dx dy k) = true

/-- The specification's ray count: steps 1 through `n` all hold the player's
stone inside the board, and walking stops right after, at the first
non-matching cell or the board edge. -/
def RayLen (b : Board) (p : Player) (r c dx dy : Int) (n : Nat) : Prop :=
  (∀ k, 1 ≤ k → k ≤ n → goodStep b p r c dx dy k) ∧ ¬ goodStep b p r c dx dy (n + 1)

/-- The state invariant tying board and history together: a well-formed grid,
history length equal to the stone count, every recorded move in range and
still marked on the board, and all recorded cells distinct. -/
structure InvBH (b : Board) (h : List Move) : Prop where
  shape : boardShape b
  count : h.length = countStones b
  inRange : ∀ m ∈ h, inBounds m.row m.col = true
  stones : ∀ m ∈ h, cellAt b m.row.toNat m.col.toNat ≠ none
  distinct : h.Pairwise (fun m1 m2 => m1.row ≠ m2.row ∨ m1.col ≠ m2.col)

/-- The session invariant, a function of board and history only. -/
def Inv (s : Session) : Prop := InvBH s.board s.moveHistory

/-- The first move of a game, placed at the board centre at time 0. -/
def demoMove : Move := ⟨7, 7, Player.black, 1, 0⟩

/-- The session reached after that one move. -/
def demoSession : Session :=
  { board := setCellI createEmptyBoard 7 7 (some Player.black)
    moveHistory := [demoMove]
    currentPlayer := Player.white
    gameStatus := Status.playing
    winner := none }

/-- A finished session: the initial position marked as already won. -/
def wonSession : Session :=
  { board := createEmptyBoard
    moveHistory := []
    currentPlayer := Player.black
    gameStatus := Status.won
    winner := some Player.black }

/-- Entries of a list strictly before the end of its `takeWhile` satisfy the
predicate. -/
theorem pred_true_of_lt_takeWhile {α : Type} (p : α → Bool) (l : List α) :
    ∀ (i : Nat) (h : i < l.length), i < (l.takeWhile p).length → p l[i] = true := by
  induction l with
  | nil => intro i h hi; simp at h
  | cons a t ih =>
    intro i h hi
    by_cases hp : p a = true
    · cases i with
      | zero => simpa using hp
      | succ j =>
        simp only [List.getElem_cons_succ]
        refine ih j (by simpa using h) ?_
        simp only [List.takeWhile_cons, if_pos hp, List.length_cons] at hi
        omega
    · simp [List.takeWhile_cons, hp] at hi

/-- The first entry after the end of a `takeWhile`, when it exists, falsifies
the predicate. -/
theorem pred_false_at_takeWhile {α : Type} (p : α → Bool) (l : List α) :
    ∀ (h : (l.takeWhile p).length < l.length), p l[(l.takeWhile p).length] = false := by
  induction l with
  | nil => intro h; simp at h
  | cons a t ih =>
    intro h
    by_cases hp : p a = true
    · have hlen : ((a :: t).takeWhile p).length = (t.takeWhile p).length + 1 := by
        simp [List.takeWhile_cons, hp]
      have hlt : (t.takeWhile p).length < t.length := by
        simp only [hlen, List.length_cons] at h; omega
      have := ih hlt
      simp only [hlen, List.getElem_cons_succ]
      exact this
    · have hlen : ((a :: t).takeWhile p).length = 0 := by
        simp [List.takeWhile_cons, hp]
      simp only [hlen, List.getElem_cons_zero]
      simpa using hp

/-- There are 14 candidate positions along any ray. -/
theorem length_rayPositions (r c dx dy : Int) : (rayPositions r c dx dy).length = 14 := by
  simp [rayPositions]

/-- The i-th candidate position along a ray is step `i + 1`. -/
theorem getElem_rayPositions (r c dx dy : Int) (i : Nat)
    (h : i < (rayPositions r c dx dy).length) :
    (rayPositions r c dx dy)[i] = stepPos r c dx dy (i + 1) := by
  simp [rayPositions]

/-- The scan loop's count satisfies the specification's characterisation of the
ray length, provided the walk could not still be inside the board after 14
steps (true for every unit direction from an in-range start). -/
theorem rayLen_rayCount (b : Board) (p : Player) (r c dx dy : Int)
    (h15 : ¬ goodStep b p r c dx dy 15) :
    RayLen b p r c dx dy (rayCount b p r c dx dy) := by
  have hlen := length_rayPositions r c dx dy
  have hle : ((rayPositions r c dx dy).takeWhile (rayPred b p)).length ≤ 14 := by
    have := (List.takeWhile_sublist (l := rayPositions r c dx dy) (rayPred b p)).length_le
    omega
  constructor
  · intro k hk1 hk2
    unfold rayCount at hk2
    have hil : k - 1 < (rayPositions r c dx dy).length := by omega
    have := pred_true_of_lt_takeWhile (rayPred b p) (rayPositions r c dx dy) (k - 1) hil
      (by omega)
    rw [getElem_rayPositions] at this
    unfold goodStep
    have hk : k - 1 + 1 = k := by omega
    rwa [hk] at this
  · intro hgood
    by_cases hlt : rayCount b p r c dx dy < 14
    · have hlt2 : ((rayPositions r c dx dy).takeWhile (rayPred b p)).length
          < (rayPositions r c dx dy).length := by
        unfold rayCount at hlt; omega
      have := pred_false_at_takeWhile (rayPred b p) (rayPositions r c dx dy) hlt2
      rw [getElem_rayPositions] at this
      unfold goodStep rayCount at hgood
      rw [hgood] at this
      exact absurd this (by simp)
    · have heq : rayCount b p r c dx dy = 14 := by unfold rayCount at hlt ⊢; omega
      rw [heq] at hgood
      exact h15 hgood

/-- The specification's ray length is unique. -/
theorem rayLen_unique {b : Board} {p : Player} {r c dx dy : Int} {n m : Nat}
    (h1 : RayLen b p r c dx dy n) (h2 : RayLen b p r c dx dy m) : n = m := by
  rcases Nat.lt_trichotomy n m with h | h | h
  · exact absurd (h2.1 (n + 1) (by omega) (by omega)) h1.2
  · exact h
  · exact absurd (h1.1 (m + 1) (by omega) (by omega)) h2.2

/-- From an in-range cell, no unit direction can still be inside the board
after 15 steps. -/
theorem not_goodStep_fifteen (b : Board) (p : Player) {r c dx dy : Int}
    (hin : inBounds r c = true)
    (hdx : dx = 0 ∨ dx = 1 ∨ dx = -1) (hdy : dy = 0 ∨ dy = 1 ∨ dy = -1)
    (hnz : ¬ (dx = 0 ∧ dy = 0)) :
    ¬ goodStep b p r c dx dy 15 := by
  intro hg
  simp only [goodStep, rayPred, stepPos, inBounds, Bool.and_eq_true, decide_eq_true_eq] at hg
  have h1 : (0 : Int) ≤ r ∧ r < 15 ∧ 0 ≤ c ∧ c < 15 := by
    simpa [inBounds] using hin
  obtain ⟨⟨ha, hb2, hc2, hd2⟩, -⟩ := hg
  rcases hdx with rfl | rfl | rfl <;> rcases hdy with rfl | rfl | rfl <;>
    first
      | exact hnz ⟨rfl, rfl⟩
      | omega

/-- Both rays of every direction pair of `checkWinner` have their scan count
characterised by the specification's ray length, from any in-range cell. -/
theorem rayLen_of_direction (b : Board) (p : Player) {r c : Int}
    (hin : inBounds r c = true) :
    ∀ d ∈ directions,
      RayLen b p r c d.1.1 d.1.2 (rayCount b p r c d.1.1 d.1.2) ∧
      RayLen b p r c d.2.1 d.2.2 (rayCount b p r c d.2.1 d.2.2) := by
  intro d hd
  fin_cases hd <;>
    exact ⟨rayLen_rayCount b p r c _ _
        (not_goodStep_fifteen b p hin (by decide) (by decide) (by decide)),
      rayLen_rayCount b p r c _ _
        (not_goodStep_fifteen b p hin (by decide) (by decide) (by decide))⟩

/-- The scan result of `checkWinner` agrees with the specification: some axis
through the placed stone reaches a total of at least five. -/
theorem checkWinner_iff_aux (b : Board) (r c : Int) (p : Player)
    (hin : inBounds r c = true) :
    checkWinner b r c p = true ↔ ∃ d ∈ directions, ∃ n1 n2,
      RayLen b p r c d.1.1 d.1.2 n1 ∧ RayLen b p r c d.2.1 d.2.2 n2 ∧
        5 ≤ 1 + n1 + n2 := by
  unfold checkWinner
  rw [List.any_eq_true]
  constructor
  · rintro ⟨d, hd, hcnt⟩
    refine ⟨d, hd, rayCount b p r c d.1.1 d.1.2, rayCount b p r c d.2.1 d.2.2,
      (rayLen_of_direction b p hin d hd).1, (rayLen_of_direction b p hin d hd).2, ?_⟩
    have := of_decide_eq_true hcnt
    simpa [axisCount] using this
  · rintro ⟨d, hd, n1, n2, h1, h2, hle⟩
    refine ⟨d, hd, ?_⟩
    have e1 : n1 = rayCount b p r c d.1.1 d.1.2 :=
      rayLen_unique h1 (rayLen_of_direction b p hin d hd).1
    have e2 : n2 = rayCount b p r c d.2.1 d.2.2 :=
      rayLen_unique h2 (rayLen_of_direction b p hin d hd).2
    subst e1
    subst e2
    exact decide_eq_true (by simpa [axisCount] using hle)

/-! Counting machinery for the history-length invariant. -/

/-- Overwriting one entry of a list of naturals changes its sum by the
difference between the new and the old entry. -/
theorem sum_set_add (l : List Nat) : ∀ (i : Nat) (a : Nat) (h : i < l.length),
    (l.set i a).sum + l[i] = l.sum + a := by
  induction l with
  | nil => intro i a h; simp at h
  | cons x t ih =>
    intro i a h
    cases i with
    | zero => simp [Nat.add_comm, Nat.add_left_comm]
    | succ j =>
      have hj : j < t.length := by simpa using h
      have := ih j a hj
      simp only [List.set_cons_succ, List.sum_cons, List.getElem_cons_succ]
      omega

/-- A defaulted read inside the length of a list is the plain read. -/
theorem getD_of_lt {α : Type} (l : List α) (d : α) (i : Nat) (h : i < l.length) :
    l.getD i d = l[i] := by
  simp [List.getD_eq_getElem?_getD, List.getElem?_eq_getElem h]

/-- `cellAt` inside the grid is the double indexed read. -/
theorem cellAt_eq (b : Board) (r c : Nat) (hr : r < b.length)
    (hc : c < (b[r]).length) : cellAt b r c = (b[r])[c] := by
  unfold cellAt
  rw [getD_of_lt b [] r hr, getD_of_lt (b[r]) none c hc]

/-- `setCell` inside the grid rewrites the indexed row. -/
theorem setCell_eq (b : Board) (r c : Nat) (v : Cell) (hr : r < b.length) :
    setCell b r c v = b.set r ((b[r]).set c v) := by
  unfold setCell
  rw [getD_of_lt b [] r hr]

/-- Reading the written cell back gives the written value. -/
theorem cellAt_setCell_self (b : Board) (r c : Nat) (v : Cell)
    (hr : r < b.length) (hc : c < (b[r]).length) :
    cellAt (setCell b r c v) r c = v := by
  rw [setCell_eq b r c v hr]
  unfold cellAt
  have h1 : r < (b.set r ((b[r]).set c v)).length := by simpa using hr
  rw [getD_of_lt _ [] r h1, List.getElem_set_self]
  have h2 : c < ((b[r]).set c v).length := by simpa using hc
  rw [getD_of_lt _ none c h2, List.getElem_set_self]

/-- Reading any other cell is unaffected by a write. -/
theorem cellAt_setCell_ne (b : Board) (r c r2 c2 : Nat) (v : Cell)
    (h : r2 ≠ r ∨ c2 ≠ c) :
    cellAt (setCell b r c v) r2 c2 = cellAt b r2 c2 := by
  unfold cellAt setCell
  simp only [List.getD_eq_getElem?_getD]
  rcases h with h | h
  · rw [List.getElem?_set_ne (fun he => h he.symm)]
  · by_cases hrr : r2 = r
    · subst hrr
      by_cases hlt : r2 < b.length
      · rw [List.getElem?_set_self hlt]
        simp only [Option.getD_some]
        rw [List.getElem?_set_ne (fun he => h he.symm)]
      · rw [List.set_eq_of_length_le (by omega)]
    · rw [List.getElem?_set_ne (fun he => hrr he.symm)]

/-- Writing a cell inside the grid changes the stone count by the difference
of the cell weights. -/
theorem countStones_setCell (b : Board) (r c : Nat) (v : Cell)
    (hr : r < b.length) (hc : c < (b[r]).length) :
    countStones (setCell b r c v) + cellWeight ((b[r])[c]) =
      countStones b + cellWeight v := by
  rw [setCell_eq b r c v hr]
  unfold countStones
  rw [List.map_set]
  have h1 : r < (b.map rowStones).length := by simpa using hr
  have e1 := sum_set_add (b.map rowStones) r (rowStones ((b[r]).set c v)) h1
  rw [List.getElem_map] at e1
  have h2 : c < ((b[r]).map cellWeight).length := by simpa using hc
  have e2 : rowStones ((b[r]).set c v) + cellWeight ((b[r])[c]) =
      rowStones (b[r]) + cellWeight v := by
    have := sum_set_add ((b[r]).map cellWeight) c (cellWeight v) h2
    rw [List.getElem_map] at this
    unfold rowStones
    rw [List.map_set]
    exact this
  omega

/-- Unfolding of `isValidMove`: in range with an empty target cell. -/
theorem isValidMove_iff_aux (b : Board) (r c : Int) :
    isValidMove b r c = true ↔
      0 ≤ r ∧ r < 15 ∧ 0 ≤ c ∧ c < 15 ∧ cellAt b r.toNat c.toNat = none := by
  unfold isValidMove
  by_cases h : r < 0 ∨ 15 ≤ r ∨ c < 0 ∨ 15 ≤ c
  · rw [if_pos h]
    constructor
    · intro hf; exact absurd hf (by simp)
    · rintro ⟨h1, h2, h3, h4, -⟩; omega
  · rw [if_neg h]
    push_neg at h
    obtain ⟨h1, h2, h3, h4⟩ := h
    simp only [Option.isNone_iff_eq_none]
    constructor
    · intro he; exact ⟨by omega, by omega, by omega, by omega, he⟩
    · rintro ⟨-, -, -, -, he⟩; exact he

/-- The freshly constructed session satisfies the invariant. -/
theorem inv_initial : Inv initialSession := by
  refine ⟨⟨by simp [initialSession, createEmptyBoard], ?_⟩, by decide, ?_, ?_, ?_⟩
  · intro row hrow
    simp only [initialSession, createEmptyBoard, List.mem_replicate] at hrow
    simp [hrow.2]
  · intro m hm; simp [initialSession] at hm
  · intro m hm; simp [initialSession] at hm
  · simp [initialSession]

/-- Placing a validated stone preserves the invariant, with the new move
appended to the history. -/
theorem invBH_place {b : Board} {h : List Move} (hI : InvBH b h) {r c : Int}
    (p : Player) (t : Nat) (hv : isValidMove b r c = true) :
    InvBH (setCellI b r c (some p)) (h ++ [⟨r, c, p, h.length + 1, t⟩]) := by
  obtain ⟨hr0, hr1, hc0, hc1, hempty⟩ := (isValidMove_iff_aux b r c).1 hv
  have hin : inBounds r c = true := by
    unfold inBounds; exact decide_eq_true ⟨hr0, hr1, hc0, hc1⟩
  have hset : setCellI b r c (some p) = setCell b r.toNat c.toNat (some p) := by
    unfold setCellI; rw [if_pos hin]
  have hrb : r.toNat < b.length := by rw [hI.shape.1]; omega
  have hcb : c.toNat < (b[r.toNat]).length := by
    rw [hI.shape.2 (b[r.toNat]) (List.getElem_mem hrb)]; omega
  have hcells : (b[r.toNat])[c.toNat] = none := by
    rw [← cellAt_eq b r.toNat c.toNat hrb hcb]; exact hempty
  rw [hset]
  refine ⟨⟨?_, ?_⟩, ?_, ?_, ?_, ?_⟩
  · rw [setCell_eq b _ _ _ hrb]
    simp [hI.shape.1]
  · intro row hrow
    rw [setCell_eq b _ _ _ hrb] at hrow
    rcases List.mem_or_eq_of_mem_set hrow with hmem | heq
    · exact hI.shape.2 row hmem
    · rw [heq]
      simp [hI.shape.2 (b[r.toNat]) (List.getElem_mem hrb)]
  · have := countStones_setCell b r.toNat c.toNat (some p) hrb hcb
    rw [hcells] at this
    simp only [cellWeight] at this
    have hc2 := hI.count
    simp only [List.length_append, List.length_cons, List.length_nil]
    omega
  · intro m hm
    rcases List.mem_append.1 hm with hmem | hmem
    · exact hI.inRange m hmem
    · simp only [List.mem_singleton] at hmem
      rw [hmem]
      exact hin
  · intro m hm
    rcases List.mem_append.1 hm with hmem | hmem
    · have hne : m.row.toNat ≠ r.toNat ∨ m.col.toNat ≠ c.toNat := by
        by_contra hcon
        push_neg at hcon
        refine hI.stones m hmem ?_
        rw [hcon.1, hcon.2, cellAt_eq b r.toNat c.toNat hrb hcb]
        exact hcells
      rw [cellAt_setCell_ne b r.toNat c.toNat _ _ _ hne]
      exact hI.stones m hmem
    · simp only [List.mem_singleton] at hmem
      rw [hmem]
      simp only
      rw [cellAt_setCell_self b r.toNat c.toNat (some p) hrb hcb]
      simp
  · rw [List.pairwise_append]
    refine ⟨hI.distinct, by simp, ?_⟩
    intro m1 hm1 m2 hm2
    simp only [List.mem_singleton] at hm2
    rw [hm2]
    simp only
    by_contra hcon
    push_neg at hcon
    have hbm1 := hI.inRange m1 hm1
    refine hI.stones m1 hm1 ?_
    rw [hcon.1, hcon.2, cellAt_eq b r.toNat c.toNat hrb hcb]
    exact hcells

/-- Undoing the last recorded move preserves the invariant: clearing its cell
takes the stone count back down with the history. -/
theorem invBH_undo {b : Board} {hist : List Move} {m : Move}
    (hI : InvBH b (hist ++ [m])) :
    InvBH (setCellI b m.row m.col none) hist := by
  have hmmem : m ∈ hist ++ [m] := by simp
  have hin := hI.inRange m hmmem
  have hbnd : (0 : Int) ≤ m.row ∧ m.row < 15 ∧ 0 ≤ m.col ∧ m.col < 15 := by
    simpa [inBounds] using hin
  have hset : setCellI b m.row m.col none = setCell b m.row.toNat m.col.toNat none := by
    unfold setCellI; rw [if_pos hin]
  have hrb : m.row.toNat < b.length := by rw [hI.shape.1]; omega
  have hcb : m.col.toNat < (b[m.row.toNat]).length := by
    rw [hI.shape.2 (b[m.row.toNat]) (List.getElem_mem hrb)]; omega
  have hstone : (b[m.row.toNat])[m.col.toNat] ≠ none := by
    rw [← cellAt_eq b m.row.toNat m.col.toNat hrb hcb]
    exact hI.stones m hmmem
  have hpair := List.pairwise_append.1 hI.distinct
  rw [hset]
  refine ⟨⟨?_, ?_⟩, ?_, ?_, ?_, ?_⟩
  · rw [setCell_eq b _ _ _ hrb]
    simp [hI.shape.1]
  · intro row hrow
    rw [setCell_eq b _ _ _ hrb] at hrow
    rcases List.mem_or_eq_of_mem_set hrow with hmem | heq
    · exact hI.shape.2 row hmem
    · rw [heq]
      simp [hI.shape.2 (b[m.row.toNat]) (List.getElem_mem hrb)]
  · have := countStones_setCell b m.row.toNat m.col.toNat none hrb hcb
    have hw : cellWeight ((b[m.row.toNat])[m.col.toNat]) = 1 := by
      cases hcell : (b[m.row.toNat])[m.col.toNat] with
      | none => exact absurd hcell hstone
      | some q => rfl
    rw [hw] at this
    simp only [cellWeight] at this
    have hc2 := hI.count
    simp only [List.length_append, List.length_cons, List.length_nil] at hc2
    omega
  · intro m1 hm1
    exact hI.inRange m1 (List.mem_append.2 (Or.inl hm1))
  · intro m1 hm1
    have hd := hpair.2.2 m1 hm1 m (by simp)
    have hb1 : (0 : Int) ≤ m1.row ∧ m1.row < 15 ∧ 0 ≤ m1.col ∧ m1.col < 15 := by
      simpa [inBounds] using hI.inRange m1 (List.mem_append.2 (Or.inl hm1))
    have hne : m1.row.toNat ≠ m.row.toNat ∨ m1.col.toNat ≠ m.col.toNat := by
      rcases hd with hd | hd
      · exact Or.inl (by omega)
      · exact Or.inr (by omega)
    rw [cellAt_setCell_ne b m.row.toNat m.col.toNat _ _ _ hne]
    exact hI.stones m1 (List.mem_append.2 (Or.inl hm1))
  · exact hpair.1

/-- Every UI command preserves the invariant: rejected commands leave the
state untouched, accepted ones move between invariant states. -/
theorem inv_applyOp (s : Session) (op : Op) (hI : Inv s) : Inv (applyOp s op) := by
  cases op with
  | resetOp => exact inv_initial
  | undoOp =>
    show Inv (undo s).2
    unfold undo
    cases hlast : s.moveHistory.getLast? with
    | none => exact hI
    | some m =>
      dsimp only
      by_cases hst : s.gameStatus ≠ Status.playing
      · rw [if_pos hst]
        exact hI
      · rw [if_neg hst]
        obtain ⟨ys, hys⟩ := List.getLast?_eq_some_iff.1 hlast
        show InvBH (setCellI s.board m.row m.col none) (s.moveHistory.dropLast)
        rw [hys, List.dropLast_concat]
        exact invBH_undo (hys ▸ hI)
  | move r c t =>
    show Inv (match makeMove s r c t with | .ok s2 => s2 | .error _ => s)
    unfold makeMove
    by_cases h1 : s.gameStatus ≠ Status.playing
    · rw [if_pos h1]
      exact hI
    · rw [if_neg h1]
      by_cases h2 : isValidMove s.board r c
      · rw [if_neg (by simpa using h2)]
        by_cases hw : checkWinner (setCellI s.board r c (some s.currentPlayer)) r c
            s.currentPlayer
        · rw [if_pos hw]
          exact invBH_place hI s.currentPlayer t h2
        · rw [if_neg hw]
          by_cases hd : checkDraw (setCellI s.board r c (some s.currentPlayer))
          · rw [if_pos hd]
            exact invBH_place hI s.currentPlayer t h2
          · rw [if_neg hd]
            exact invBH_place hI s.currentPlayer t h2
      · rw [if_pos (by simpa using h2)]
        exact hI

/-- Any command sequence run from an invariant state ends in one. -/
theorem inv_runOps (ops : List Op) : ∀ (s : Session), Inv s → Inv (runOps s ops) := by
  induction ops with
  | nil => intro s hI; exact hI
  | cons op rest ih =>
    intro s hI
    exact ih (applyOp s op) (inv_applyOp s op hI)

/-! Claim theorems. -/

/-- C1: in a Playing state, a move at any in-range empty cell succeeds and
performs exactly the described state change: the current player's stone is
placed, a move with sequence number `history length + 1` and the given
timestamp is appended, and then, in order: win keeps the turn and sets
winner, else draw keeps the turn, else the turn switches. -/
theorem makeMove_success_spec (s : Session) (r c : Int) (t : Nat)
    (hst : s.gameStatus = Status.playing) (hv : isValidMove s.board r c = true) :
    ∃ s2, makeMove s r c t = Except.ok s2 ∧
      s2.board = setCellI s.board r c (some s.currentPlayer) ∧
      s2.moveHistory = s.moveHistory ++
        [⟨r, c, s.currentPlayer, s.moveHistory.length + 1, t⟩] ∧
      (checkWinner s2.board r c s.currentPlayer = true →
        s2.gameStatus = Status.won ∧ s2.winner = some s.currentPlayer ∧
          s2.currentPlayer = s.currentPlayer) ∧
      (checkWinner s2.board r c s.currentPlayer = false → checkDraw s2.board = true →
        s2.gameStatus = Status.draw ∧ s2.currentPlayer = s.currentPlayer ∧
          s2.winner = s.winner) ∧
      (checkWinner s2.board r c s.currentPlayer = false → checkDraw s2.board = false →
        s2.gameStatus = Status.playing ∧ s2.currentPlayer = s.currentPlayer.other ∧
          s2.winner = s.winner) := by
  unfold makeMove
  rw [if_neg (by simp [hst]), if_neg (by simp [hv])]
  by_cases hw : checkWinner (setCellI s.board r c (some s.currentPlayer)) r c
      s.currentPlayer
  · rw [if_pos hw]
    exact ⟨_, rfl, rfl, rfl, fun _ => ⟨rfl, rfl, rfl⟩,
      fun hfw _ => Bool.noConfusion (hw.symm.trans hfw),
      fun hfw _ => Bool.noConfusion (hw.symm.trans hfw)⟩
  · rw [if_neg hw]
    by_cases hd : checkDraw (setCellI s.board r c (some s.currentPlayer))
    · rw [if_pos hd]
      exact ⟨_, rfl, rfl, rfl, fun hw2 => absurd hw2 hw,
        fun _ _ => ⟨rfl, rfl, rfl⟩,
        fun _ hd2 => Bool.noConfusion (hd.symm.trans hd2)⟩
    · rw [if_neg hd]
      exact ⟨_, rfl, rfl, rfl, fun hw2 => absurd hw2 hw,
        fun _ hd2 => absurd hd2 hd, fun _ _ => ⟨rfl, rfl, rfl⟩⟩

/-- Witness for C1 at the centre opening move of a fresh game. -/
theorem makeMove_success_spec_witness :
    initialSession.gameStatus = Status.playing ∧
    isValidMove initialSession.board 7 7 = true ∧
    ∃ s2, makeMove initialSession 7 7 0 = Except.ok s2 ∧
      s2.board = setCellI initialSession.board 7 7 (some initialSession.currentPlayer) ∧
      s2.moveHistory = initialSession.moveHistory ++
        [⟨7, 7, initialSession.currentPlayer, initialSession.moveHistory.length + 1, 0⟩] ∧
      (checkWinner s2.board 7 7 initialSession.currentPlayer = true →
        s2.gameStatus = Status.won ∧ s2.winner = some initialSession.currentPlayer ∧
          s2.currentPlayer = initialSession.currentPlayer) ∧
      (checkWinner s2.board 7 7 initialSession.currentPlayer = false →
        checkDraw s2.board = true →
        s2.gameStatus = Status.draw ∧ s2.currentPlayer = initialSession.currentPlayer ∧
          s2.winner = initialSession.winner) ∧
      (checkWinner s2.board 7 7 initialSession.currentPlayer = false →
        checkDraw s2.board = false →
        s2.gameStatus = Status.playing ∧
          s2.currentPlayer = initialSession.currentPlayer.other ∧
          s2.winner = initialSession.winner) :=
  ⟨rfl, by decide, makeMove_success_spec initialSession 7 7 0 rfl (by decide)⟩

/-- C2: `checkWinner` holds exactly when one of the four axes through the
placed stone counts at least five: 1 for the placed stone plus the contiguous
same-player stones along both opposite rays, stopping at the first
non-matching cell or the board edge; in particular it holds for exactly five
contiguous stones and fails for four contiguous stones blocked at both
ends by the opponent. -/
theorem checkWinner_spec :
    (∀ (b : Board) (r c : Int) (p : Player), inBounds r c = true →
      (checkWinner b r c p = true ↔ ∃ d ∈ directions, ∃ n1 n2,
        RayLen b p r c d.1.1 d.1.2 n1 ∧ RayLen b p r c d.2.1 d.2.2 n2 ∧
          5 ≤ 1 + n1 + n2)) ∧
    checkWinner fiveInRowBoard 7 9 Player.black = true ∧
    checkWinner blockedFourBoard 7 8 Player.black = false :=
  ⟨fun b r c p hin => checkWinner_iff_aux b r c p hin, by decide, by decide⟩

/-- Witness for C2 at the completed five in a row. -/
theorem checkWinner_spec_witness :
    inBounds 7 9 = true ∧
    (checkWinner fiveInRowBoard 7 9 Player.black = true ↔ ∃ d ∈ directions, ∃ n1 n2,
      RayLen fiveInRowBoard Player.black 7 9 d.1.1 d.1.2 n1 ∧
      RayLen fiveInRowBoard Player.black 7 9 d.2.1 d.2.2 n2 ∧ 5 ≤ 1 + n1 + n2) :=
  ⟨by decide, checkWinner_spec.1 fiveInRowBoard 7 9 Player.black (by decide)⟩

/-- C3: undo fails leaving the whole state unchanged exactly when the history
is empty or the game is not Playing; otherwise it removes the most recent
move, clears its cell, and hands the turn back to that move's player. -/
theorem undo_spec (s : Session) :
    (undo s = (false, s) ↔ s.moveHistory = [] ∨ s.gameStatus ≠ Status.playing) ∧
    (∀ hist m, s.moveHistory = hist ++ [m] → s.gameStatus = Status.playing →
      undo s = (true, ⟨setCellI s.board m.row m.col none, hist, m.player,
        Status.playing, s.winner⟩)) := by
  constructor
  · unfold undo
    cases hlast : s.moveHistory.getLast? with
    | none =>
      have hnil := List.getLast?_eq_none_iff.1 hlast
      simp [hnil]
    | some m =>
      dsimp only
      obtain ⟨ys, hys⟩ := List.getLast?_eq_some_iff.1 hlast
      by_cases hst : s.gameStatus ≠ Status.playing
      · rw [if_pos hst]
        simp [hst]
      · rw [if_neg hst]
        constructor
        · intro hfalse
          exact absurd (congrArg Prod.fst hfalse) (by simp)
        · intro hor
          rcases hor with hnil | hne
          · rw [hnil] at hys
            exact absurd hys (by simp)
          · exact absurd hne hst
  · intro hist m hm hpl
    unfold undo
    rw [hm, List.getLast?_concat]
    dsimp only
    rw [if_neg (by simp [hpl])]
    simp [List.dropLast_concat, hpl]

/-- Witness for C3: undoing the single recorded move of `demoSession`. -/
theorem undo_spec_witness :
    demoSession.moveHistory = [] ++ [demoMove] ∧
    demoSession.gameStatus = Status.playing ∧
    undo demoSession = (true, ⟨setCellI demoSession.board demoMove.row demoMove.col none,
      [], demoMove.player, Status.playing, demoSession.winner⟩) :=
  ⟨by decide, rfl, (undo_spec demoSession).2 [] demoMove (by decide) rfl⟩

/-- C4 counterexample: the empty JSON object parses but lacks every required
field, yet `loadGame` does not leave the prior session state unchanged — it
overwrites every field before the in-try refresh throws. -/
theorem loadGame_missing_fields_cex :
    malformedBlob (some emptyRaw) = true ∧
    ¬ ((loadGame initialSession.toDyn (some emptyRaw)).2 = initialSession.toDyn) := by
  decide

/-- C4 (amended): `loadGame` leaves the prior state unchanged only on parse
failure (reported as failure); any blob that parses has all five session
fields overwritten with the blob's values, a missing field leaving the field
undefined, and failure is then reported exactly when `board` or
`moveHistory` is missing (the in-try core accessors throw on those), never
as a distinct corrupt-state error. -/
theorem loadGame_spec_amended (g : SessionDyn) (gs : RawState) :
    loadGame g none = (false, g) ∧
    (loadGame g (some gs)).2 =
      ⟨gs.board, gs.moveHistory, gs.currentPlayer, gs.gameStatus, gs.winner⟩ ∧
    ((loadGame g (some gs)).1 = false ↔ (gs.board = none ∨ gs.moveHistory = none)) := by
  refine ⟨rfl, ?_, ?_⟩
  · unfold loadGame
    dsimp only
    split <;> rfl
  · unfold loadGame
    dsimp only
    by_cases h : gs.board.isNone || gs.moveHistory.isNone
    · rw [if_pos h]
      simp only [Bool.or_eq_true, Option.isNone_iff_eq_none] at h
      simpa using h
    · rw [if_neg h]
      simp only [Bool.or_eq_true, Option.isNone_iff_eq_none] at h
      push_neg at h
      simp [h.1, h.2]

/-- C5: a move in a finished game fails with the game-over error, a move at an
invalid cell of a running game fails with the invalid-move error, and in both
cases the caller's state is left unchanged. -/
theorem makeMove_failure_spec (s : Session) (r c : Int) (t : Nat) :
    (s.gameStatus ≠ Status.playing →
      makeMove s r c t = Except.error MoveError.gameOver ∧
        applyOp s (Op.move r c t) = s) ∧
    (s.gameStatus = Status.playing → isValidMove s.board r c = false →
      makeMove s r c t = Except.error MoveError.invalidMove ∧
        applyOp s (Op.move r c t) = s) := by
  constructor
  · intro h
    have hm : makeMove s r c t = Except.error MoveError.gameOver := by
      unfold makeMove; rw [if_pos h]
    refine ⟨hm, ?_⟩
    unfold applyOp
    dsimp only
    rw [hm]
  · intro h1 h2
    have hm : makeMove s r c t = Except.error MoveError.invalidMove := by
      unfold makeMove
      rw [if_neg (by simp [h1]), if_pos (by simp [h2])]
    refine ⟨hm, ?_⟩
    unfold applyOp
    dsimp only
    rw [hm]

/-- Witness for C5: a move into a won game and an out-of-range move in a
fresh game. -/
theorem makeMove_failure_spec_witness :
    (makeMove wonSession 0 0 0 = Except.error MoveError.gameOver ∧
      applyOp wonSession (Op.move 0 0 0) = wonSession) ∧
    (makeMove initialSession (-1) 0 0 = Except.error MoveError.invalidMove ∧
      applyOp initialSession (Op.move (-1) 0 0) = initialSession) :=
  ⟨(makeMove_failure_spec wonSession 0 0 0).1 (by decide),
   (makeMove_failure_spec initialSession (-1) 0 0).2 rfl (by decide)⟩

/-- C6: after any sequence of UI commands from the fresh session, the history
length equals the number of non-empty cells on the board. -/
theorem history_length_eq_stones (ops : List Op) :
    (runOps initialSession ops).moveHistory.length =
      countStones (runOps initialSession ops).board :=
  (inv_runOps ops initialSession inv_initial).count

/-- C7: loading the blob saved from any session reproduces the board, the
history, the current player, the status and the winner exactly. -/
theorem save_load_roundtrip (s : Session) (t : Nat) :
    loadGame s.toDyn (some (saveGame s t)) = (true, s.toDyn) := rfl

/-- C8: a move is valid exactly when both coordinates are in range 0..14 and
the addressed cell is empty; out-of-range coordinates, the four out-of-range
corners included, always give false rather than an error. -/
theorem isValidMove_spec (b : Board) (r c : Int) :
    isValidMove b r c = true ↔
      0 ≤ r ∧ r < 15 ∧ 0 ≤ c ∧ c < 15 ∧ cellAtI b r c = none := by
  rw [isValidMove_iff_aux]
  constructor
  · rintro ⟨h1, h2, h3, h4, h5⟩
    refine ⟨h1, h2, h3, h4, ?_⟩
    unfold cellAtI
    rw [if_pos (by unfold inBounds; exact decide_eq_true ⟨h1, h2, h3, h4⟩)]
    exact h5
  · rintro ⟨h1, h2, h3, h4, h5⟩
    refine ⟨h1, h2, h3, h4, ?_⟩
    unfold cellAtI at h5
    rwa [if_pos (by unfold inBounds; exact decide_eq_true ⟨h1, h2, h3, h4⟩)] at h5

/-- C9: each in-range coordinate maps to the column letter followed by
`15 - row`, anchored at `(0,0) = A15` and `(14,14) = O1`, and parsing the
displayed string recovers exactly the original row and column. -/
theorem display_coords_spec :
    boardToDisplayCoords 0 0 = "A15" ∧ boardToDisplayCoords 14 14 = "O1" ∧
    ∀ r < 15, ∀ c < 15,
      displayToBoardCoords (boardToDisplayCoords r c) = some (r, c) := by
  decide

/-- Witness for C9 at the coordinate (3, 4). -/
theorem display_coords_spec_witness :
    3 < 15 ∧ 4 < 15 ∧
    displayToBoardCoords (boardToDisplayCoords 3 4) = some (3, 4) :=
  ⟨by decide, by decide, display_coords_spec.2.2 3 (by decide) 4 (by decide)⟩

/-- C10: out-of-range reads return null rather than raising, so `isEmpty` is
true there while `isValidMove` is false. -/
theorem getPiece_out_of_range_spec (s : Session) (r c : Int)
    (h : r < 0 ∨ 15 ≤ r ∨ c < 0 ∨ 15 ≤ c) :
    getPiece s r c = none ∧ isEmpty s r c = true ∧
      isValidMove s.board r c = false := by
  have h1 : getPiece s r c = none := by unfold getPiece; rw [if_pos h]
  refine ⟨h1, ?_, ?_⟩
  · unfold isEmpty
    rw [h1]
    rfl
  · unfold isValidMove
    rw [if_pos h]

/-- Witness for C10 at row -1. -/
theorem getPiece_out_of_range_spec_witness :
    ((-1 : Int) < 0 ∨ 15 ≤ (-1 : Int) ∨ (0 : Int) < 0 ∨ 15 ≤ (0 : Int)) ∧
    (getPiece initialSession (-1) 0 = none ∧ isEmpty initialSession (-1) 0 = true ∧
      isValidMove initialSession.board (-1) 0 = false) :=
  ⟨by decide, getPiece_out_of_range_spec initialSession (-1) 0 (by decide)⟩

end Gomoku
